import Mathlib

/-!
Shallow embedding of the Vest-schedule repository (src/validation.py,
src/process_data.py, src/vesting_program.py) together with proofs about it.

Conventions of the embedding:
* Python `Decimal` values are exact fixed-point decimals.  After validation every
  quantity has at most `precision` fractional digits, so throughout the pipeline a
  quantity is represented by its scaled integer value `m : ℤ`, the numeric value
  being `m / 10 ^ precision`.  `Decimal` addition and subtraction are exact, so
  integer addition/subtraction of scaled values is a faithful model.
* Strings are processed as their underlying character lists; digits are modelled as
  ASCII digits.
* A row coming out of `csv.DictReader` always carries all six field names; a field
  that is absent from a short CSV line is mapped to the value `None`.  Such a row is
  modelled by `RawRow`, whose fields are `Option String` (`none` standing for
  Python `None`).  A raw dictionary that may lack keys altogether (the direct
  `validate_row` interface) is modelled separately by `RawDict`.
-/

namespace VestSchedule

/-- Whitespace recognised by the model of Python `str.strip()`. -/
def isSpaceChar (c : Char) : Bool :=
  c = ' ' || c = Char.ofNat 9 || c = Char.ofNat 10 || c = Char.ofNat 13 ||
    c = Char.ofNat 11 || c = Char.ofNat 12

/-- Model of Python `str.strip()` acting on a character list. -/
def stripChars (cs : List Char) : List Char :=
  ((cs.dropWhile isSpaceChar).reverse.dropWhile isSpaceChar).reverse

/-- Model of Python `str.strip()`. -/
def pyStrip (s : String) : String :=
  (stripChars s.data).asString

def isDigitChar (c : Char) : Bool :=
  48 ≤ c.toNat && c.toNat ≤ 57

def digitVal (c : Char) : ℕ := c.toNat - 48

/-- Numeric value of a list of ASCII digits, most significant first. -/
def digitsToNat (cs : List Char) : ℕ :=
  cs.foldl (fun a c => a * 10 + digitVal c) 0

/-- Calendar dates, as produced by `datetime.strptime(s, "%Y-%m-%d")` (the time
    component is always midnight and is dropped). -/
structure Date where
  year : ℕ
  month : ℕ
  day : ℕ
deriving DecidableEq

/-- Comparison of two dates, the model of `datetime.__le__` restricted to
    midnight datetimes: lexicographic on (year, month, day). -/
def dateLe (a b : Date) : Bool :=
  decide (a.year < b.year) ||
    (decide (a.year = b.year) &&
      (decide (a.month < b.month) ||
        (decide (a.month = b.month) && decide (a.day ≤ b.day))))

/-- Proleptic Gregorian leap-year rule, as used by `datetime`. -/
def isLeapYear (y : ℕ) : Bool :=
  y % 4 = 0 && (y % 100 ≠ 0 || y % 400 = 0)

def daysInMonth (y m : ℕ) : ℕ :=
  if m = 2 then (if isLeapYear y then 29 else 28)
  else if m = 4 ∨ m = 6 ∨ m = 9 ∨ m = 11 then 30
  else 31

/-- CPython `_strptime` pattern for `%Y`: exactly four digits. -/
def yearVal (cs : List Char) : Option ℕ :=
  match cs with
  | [a, b, c, d] =>
      if isDigitChar a ∧ isDigitChar b ∧ isDigitChar c ∧ isDigitChar d then
        some (digitsToNat [a, b, c, d])
      else none
  | _ => none

/-- CPython `_strptime` pattern for `%m`: `1[0-2] | 0[1-9] | [1-9]` read on a full
    component, so a month may be written with or without a leading zero. -/
def monthVal (cs : List Char) : Option ℕ :=
  match cs with
  | [c] => if 49 ≤ c.toNat ∧ c.toNat ≤ 57 then some (digitVal c) else none
  | [c1, c2] =>
      if c1 = '1' ∧ 48 ≤ c2.toNat ∧ c2.toNat ≤ 50 then some (10 + digitVal c2)
      else if c1 = '0' ∧ 49 ≤ c2.toNat ∧ c2.toNat ≤ 57 then some (digitVal c2)
      else none
  | _ => none

/-- CPython `_strptime` pattern for `%d`: `3[01] | [12][0-9] | 0[1-9] | [1-9]` read on
    a full component, so a day may be written with or without a leading zero. -/
def dayVal (cs : List Char) : Option ℕ :=
  match cs with
  | [c] => if 49 ≤ c.toNat ∧ c.toNat ≤ 57 then some (digitVal c) else none
  | [c1, c2] =>
      if c1 = '3' ∧ (c2 = '0' ∨ c2 = '1') then some (30 + digitVal c2)
      else if (c1 = '1' ∨ c1 = '2') ∧ isDigitChar c2 then
        some (10 * digitVal c1 + digitVal c2)
      else if c1 = '0' ∧ 49 ≤ c2.toNat ∧ c2.toNat ≤ 57 then some (digitVal c2)
      else none
  | _ => none

/-- Model of `datetime.strptime(s, "%Y-%m-%d")` followed by construction of the
    `datetime` object, per CPython: the string must be a four-digit year, a dash, a
    month matching `1[0-2]|0[1-9]|[1-9]`, a dash, and a day matching
    `3[01]|[12][0-9]|0[1-9]|[1-9]`, consuming the whole string; the resulting
    numbers must form a valid proleptic-Gregorian calendar date with year ≥ 1
    (`datetime.MINYEAR`).  Digits are modelled as ASCII digits. -/
def strptimeYmd (s : String) : Option Date :=
  match s.data.splitOn '-' with
  | [ys, ms, ds] =>
      match yearVal ys, monthVal ms, dayVal ds with
      | some y, some m, some d =>
          if 1 ≤ y ∧ d ≤ daysInMonth y m then some ⟨y, m, d⟩ else none
      | _, _, _ => none
  | _ => none

/-- Nonempty all-digit component of a decimal numeric string. -/
def parseUnsignedDigits (cs : List Char) : Option ℕ :=
  if cs.all isDigitChar ∧ cs ≠ [] then some (digitsToNat cs) else none

/-- Exponent part of a decimal numeric string (after the `e`): optional sign and a
    nonempty digit run. -/
def parseExpPart (cs : List Char) : Option ℤ :=
  match cs with
  | '+' :: t => (parseUnsignedDigits t).map (fun n => (n : ℤ))
  | '-' :: t => (parseUnsignedDigits t).map (fun n => -(n : ℤ))
  | t => (parseUnsignedDigits t).map (fun n => (n : ℤ))

/-- Mantissa of a decimal numeric string: digits with an optional dot, at least one
    digit overall.  Returns the digit value together with the number of fractional
    digits. -/
def parseMantissa (cs : List Char) : Option (ℕ × ℕ) :=
  match cs.splitOn '.' with
  | [i] => if i.all isDigitChar ∧ i ≠ [] then some (digitsToNat i, 0) else none
  | [i, f] =>
      if i.all isDigitChar ∧ f.all isDigitChar ∧ (i ≠ [] ∨ f ≠ []) then
        some (digitsToNat (i ++ f), f.length)
      else none
  | _ => none

def lowerE (c : Char) : Char := if c = 'E' then 'e' else c

/-- Normalise a signed digit value and an integer scale to a pair `(n, s)` with the
    numeric value `n / 10 ^ s` and `s : ℕ`. -/
def normScale (num : ℤ) (sc : ℤ) : ℤ × ℕ :=
  if sc ≤ 0 then (num * 10 ^ (-sc).toNat, 0) else (num, sc.toNat)

/-- Model of `Decimal(s)` for a string argument, returning the exact value as a pair
    `(n, s)` with numeric value `n / 10 ^ s`.  Per CPython: surrounding whitespace is
    stripped and underscores are removed, then the string must be
    `sign? (digits (. digits?)? | . digits) ([eE] sign? digits)?`.  The special
    values (NaN, Infinity) are mapped to `none`: the caller immediately calls
    `quantize`, which raises `InvalidOperation` on them, and the surrounding
    `except` clause treats that exactly like a parse failure. -/
def pyDecimalParse (s : String) : Option (ℤ × ℕ) :=
  let cs := (stripChars s.data).filter (fun c => ¬ c = '_')
  let sg : ℤ × List Char :=
    match cs with
    | '+' :: t => (1, t)
    | '-' :: t => (-1, t)
    | t => (1, t)
  match (sg.2.map lowerE).splitOn 'e' with
  | [m] => (parseMantissa m).map (fun p => (sg.1 * p.1, p.2))
  | [m, e] =>
      match parseMantissa m, parseExpPart e with
      | some (n, f), some ex => some (normScale (sg.1 * n) ((f : ℤ) - ex))
      | _, _ => none
  | _ => none

/-- Truncation toward zero of `n / 10 ^ k`, the rounding performed by decimal
    `ROUND_DOWN`. -/
def tZeroDiv (n : ℤ) (k : ℕ) : ℤ :=
  if 0 ≤ n then ((n.natAbs / 10 ^ k : ℕ) : ℤ) else -((n.natAbs / 10 ^ k : ℕ) : ℤ)

/-- Model of `Decimal(value).quantize(Decimal("1." + "0"*p), rounding=ROUND_DOWN)`
    on the exact value `n / 10 ^ s`: the result is the scaled integer `m` such that
    the quantized value is `m / 10 ^ p`. -/
def quantizeDown (n : ℤ) (s : ℕ) (p : ℕ) : ℤ :=
  if s ≤ p then n * 10 ^ (p - s) else tZeroDiv n (s - p)

/-- The six required CSV field names, in the order of `FIELD_NAMES`. -/
inductive EField
  | event_type
  | emp_id
  | emp_name
  | award_id
  | date
  | quantity
deriving DecidableEq

def FIELD_NAMES : List EField :=
  [.event_type, .emp_id, .emp_name, .award_id, .date, .quantity]

/-- A row as produced by `csv.DictReader(csvfile, fieldnames=FIELD_NAMES)`: every
    field name is present; a field missing from a short line holds `None`. -/
structure RawRow where
  event_type : Option String
  emp_id : Option String
  emp_name : Option String
  award_id : Option String
  date : Option String
  quantity : Option String
deriving DecidableEq

def RawRow.get (r : RawRow) : EField → Option String
  | .event_type => r.event_type
  | .emp_id => r.emp_id
  | .emp_name => r.emp_name
  | .award_id => r.award_id
  | .date => r.date
  | .quantity => r.quantity

/-- Test performed by check 1 of `validate_row` on one field value:
    `row[key] is None or row[key].strip() == ''`. -/
def isBlankVal (v : Option String) : Bool :=
  match v with
  | none => true
  | some s => pyStrip s = ""

/-- The five failure categories of `validate_row`, in check order. -/
inductive RowError
  | missing
  | badType (et : String)
  | badDate
  | badQty
  | negQty
deriving DecidableEq

inductive EType
  | VEST
  | CANCEL
deriving DecidableEq

/-- A validated event, the dictionary returned by a successful `validate_row`.
    `quantity` is the scaled integer of the quantized decimal: the numeric value is
    `quantity / 10 ^ precision`. -/
structure Event where
  event_type : EType
  emp_id : String
  emp_name : String
  award_id : String
  event_date : Date
  quantity : ℤ
deriving DecidableEq

/-- Checks 2-5 of `validate_row` (src/validation.py lines 34-57), run after check 1
    has passed: check 2 event-type membership in VEST/CANCEL; check 3 date format
    via `strptime`; check 4 quantity parse and quantization with `ROUND_DOWN`;
    check 5 non-negativity of the quantized quantity.  On success, the returned
    event carries the parsed date and the quantized quantity. -/
def validateRest (row : RawRow) (precision : ℕ) : Sum RowError Event :=
  let et := (row.get .event_type).getD ""
  if ¬ (et = "VEST" ∨ et = "CANCEL") then .inl (.badType et)
  else
    match strptimeYmd ((row.get .date).getD "") with
    | none => .inl .badDate
    | some d =>
        match pyDecimalParse ((row.get .quantity).getD "") with
        | none => .inl .badQty
        | some ns =>
            let q := quantizeDown ns.1 ns.2 precision
            if q < 0 then .inl .negQty
            else .inr ⟨if et = "VEST" then .VEST else .CANCEL,
                       (row.get .emp_id).getD "", (row.get .emp_name).getD "",
                       (row.get .award_id).getD "", d, q⟩

/-- The validation logic of `validate_row` (src/validation.py lines 30-57) with the
    error message factored out into its category: check 1 missing/blank fields (the
    message does not depend on which field failed, so `List.any` over `FIELD_NAMES`
    is equivalent to the source's first-failure loop on a `RawRow`, where no
    `KeyError` is possible), then checks 2-5 of `validateRest`. -/
def validateRowCore (row : RawRow) (precision : ℕ) : Sum RowError Event :=
  if FIELD_NAMES.any (fun f => isBlankVal (row.get f)) then .inl .missing
  else validateRest row precision

/-- The single-quote character, used by the Python `repr` of a string. -/
def sq : String := (Char.ofNat 39).toString

/-- Model of `repr` of one dictionary value as printed inside `row.values()`. -/
def pyRepr (v : Option String) : String :=
  match v with
  | none => "None"
  | some s => sq ++ s ++ sq

def joinSep (sep : String) : List String → String
  | [] => ""
  | [x] => x
  | x :: xs => x ++ sep ++ joinSep sep xs

/-- Model of the f-string interpolation of `row.values()`: `DictReader` builds the
    dictionary in `FIELD_NAMES` order. -/
def renderValues (row : RawRow) : String :=
  "dict_values([" ++ joinSep ", " (FIELD_NAMES.map (fun f => pyRepr (row.get f))) ++ "])"

/-- The error message strings of `validate_row`, one per failure category. -/
def errMsg (e : RowError) (index : ℕ) (row : RawRow) : String :=
  match e with
  | .missing =>
      "Row index " ++ Nat.repr index ++ ": Missing field in " ++ renderValues row ++ ": "
  | .badType et =>
      "Row index " ++ Nat.repr index ++ ": Invalid event type " ++ sq ++ et ++ sq ++
        " in " ++ renderValues row
  | .badDate =>
      "Row index " ++ Nat.repr index ++ ": Invalid date format in " ++ renderValues row
  | .badQty =>
      "Row index " ++ Nat.repr index ++ ": Invalid quantity in " ++ renderValues row
  | .negQty =>
      "Row index " ++ Nat.repr index ++ ": Negative quantity in " ++ renderValues row

/-- Model of `validate_row(row, index, precision)` on a `DictReader` row: either an
    error-message string or the validated event. -/
def validate_row (row : RawRow) (index : ℕ) (precision : ℕ) : Sum String Event :=
  match validateRowCore row precision with
  | .inl e => .inl (errMsg e index row)
  | .inr ev => .inr ev

/-- A raw dictionary as passed to `validate_row` directly, which unlike a
    `DictReader` row may lack keys altogether: the outer `none` means the key is
    absent, `some none` means the key holds Python `None`. -/
def RawDict := EField → Option (Option String)

/-- The check-1 loop of `validate_row` on a raw dictionary:
    `for key in FIELD_NAMES: if row[key] is None or row[key].strip() == '' ...`.
    Dictionary access `row[key]` raises `KeyError` when the key is absent, modelled
    as `Except.error ()`.  Returns `ok true` when a present field is `None`/blank
    (the missing-field branch) and `ok false` when the loop completes. -/
def checkRequired (row : RawDict) : List EField → Except Unit Bool
  | [] => .ok false
  | f :: fs =>
      match row f with
      | none => .error ()
      | some v => if isBlankVal v then .ok true else checkRequired row fs

/-- Field values of a raw dictionary collected into a `RawRow` (used only after the
    check-1 loop has established that every key is present). -/
def toRawRow (row : RawDict) : RawRow :=
  ⟨(row .event_type).getD none, (row .emp_id).getD none, (row .emp_name).getD none,
   (row .award_id).getD none, (row .date).getD none, (row .quantity).getD none⟩

/-- Model of `validate_row` at its raw-dictionary interface: `KeyError` (as
    `Except.error ()`) when an absent key is reached by the check-1 loop before any
    present-but-blank field, otherwise the result of the five checks, reported by
    category (message construction is elided at this interface). -/
def validate_row_raw (row : RawDict) (precision : ℕ) : Except Unit (Sum RowError Event) :=
  match checkRequired row FIELD_NAMES with
  | .error () => .error ()
  | .ok true => .ok (.inl .missing)
  | .ok false => .ok (validateRest (toRawRow row) precision)

/-! ## Aggregation (src/process_data.py) -/

abbrev EventKey := String × String × String

/-- The aggregate mapping, modelled as an association list in dictionary insertion
    order (Python dictionaries preserve insertion order). -/
abbrev AggMap := List (EventKey × ℤ)

/-- The `defaultdict(Decimal)` update `events[k] += d`: update the entry in place
    when the key is present, append `(k, 0 + d)` when absent. -/
def addTo : AggMap → EventKey → ℤ → AggMap
  | [], k, d => [(k, d)]
  | (k0, v) :: t, k, d => if k = k0 then (k0, v + d) :: t else (k0, v) :: addTo t k d

def mapKeys (m : AggMap) : List EventKey := m.map Prod.fst

/-- Dictionary lookup. -/
def getVal : AggMap → EventKey → Option ℤ
  | [], _ => none
  | (k0, v) :: t, k => if k = k0 then some v else getVal t k

def eventKey (e : Event) : EventKey := (e.emp_id, e.emp_name, e.award_id)

def BATCH_SIZE : ℕ := 100

/-- The per-event update of `process_batch` (src/process_data.py lines 50-58): on or
    before the target date a VEST adds and a CANCEL subtracts the quantity at the
    key; after the target date the key is inserted with value 0 only if absent. -/
def stepEvent (target : Date) (events : AggMap) (e : Event) : AggMap :=
  if dateLe e.event_date target then
    if e.event_type = .VEST then addTo events (eventKey e) e.quantity
    else addTo events (eventKey e) (-e.quantity)
  else
    if eventKey e ∈ mapKeys events then events
    else events ++ [(eventKey e, 0)]

/-- The loop body of `process_batch`: validate with index
    `batch_index * BATCH_SIZE + index`, record the message on failure, apply
    `stepEvent` on success. -/
def stepRow (target : Date) (precision : ℕ) (batch_index : ℕ)
    (st : AggMap × ℕ × List String) (ir : ℕ × RawRow) : AggMap × ℕ × List String :=
  match validate_row ir.2 (batch_index * BATCH_SIZE + ir.1) precision with
  | .inl msg => (st.1, st.2.1 + 1, st.2.2 ++ [msg])
  | .inr ev => (stepEvent target st.1 ev, st.2.1, st.2.2)

/-- Model of `process_batch(batch, target_date, precision, batch_index)`. -/
def process_batch (batch : List (ℕ × RawRow)) (target : Date) (precision : ℕ)
    (batch_index : ℕ) : AggMap × ℕ × List String :=
  batch.foldl (stepRow target precision batch_index) ([], 0, [])

/-- Fuelled worker for `chunksSucc`; the fuel bounds the number of chunks and is
    structurally decreasing, so that the definition evaluates by kernel
    reduction.  The fuel-exhausted branch is never reached from `chunksSucc`. -/
def chunksGo (n : ℕ) : ℕ → List α → List (List α)
  | _, [] => []
  | 0, l => [l]
  | fuel + 1, x :: xs => (x :: xs).take (n + 1) :: chunksGo n fuel (xs.drop n)

/-- Consecutive chunks of size `n + 1` of a list (the final chunk may be short). -/
def chunksSucc (n : ℕ) (l : List α) : List (List α) := chunksGo n l.length l

/-- The merge loop of `process_csv` (lines 99-100 and 109-110):
    `for key, quantity in batch_events.items(): events[key] += quantity`. -/
def mergeInto (events : AggMap) (batchEvents : AggMap) : AggMap :=
  batchEvents.foldl (fun a kv => addTo a kv.1 kv.2) events

/-- Model of `process_csv`: the reader's rows are enumerated with their global
    zero-based position, grouped into consecutive batches of `BATCH_SIZE = 100`
    (the final batch may be short), and each batch is processed by `process_batch`
    with `batch_index` equal to its position; partial maps are merged into the
    running `defaultdict` and error counts/messages are accumulated in order.
    Returns the final map with the diagnostics side channel. -/
def process_csv (rows : List RawRow) (target : Date) (precision : ℕ) :
    AggMap × ℕ × List String :=
  ((chunksSucc 99 rows.enum).enum).foldl
    (fun st ib =>
      let r := process_batch ib.2 target precision ib.1
      (mergeInto st.1 r.1, st.2.1 + r.2.1, st.2.2 ++ r.2.2))
    ([], 0, [])

/-- Modelled from the spec (§4.3 and §3): the reference semantics for claim C3, a
    single in-order pass over all rows that validates each row, skips invalid ones,
    and applies the cutoff / zero-carry rule directly to one running map, honoring
    original row order. -/
def specSinglePass (rows : List RawRow) (target : Date) (precision : ℕ) : AggMap :=
  rows.foldl
    (fun m r =>
      match validateRowCore r precision with
      | .inl _ => m
      | .inr e => stepEvent target m e) []

/-! ## Output (src/vesting_program.py, display_results) -/

/-- Strict lexicographic comparison of two character lists by code point, the model
    of Python string `<`. -/
def lexLt : List Char → List Char → Bool
  | [], [] => false
  | [], _ :: _ => true
  | _ :: _, [] => false
  | a :: as, b :: bs =>
      if a.toNat < b.toNat then true
      else if b.toNat < a.toNat then false
      else lexLt as bs

def strLt (a b : String) : Bool := lexLt a.data b.data

/-- Python tuple comparison `(a1,b1,c1) <= (a2,b2,c2)` for string triples. -/
def keyLe (x y : EventKey) : Bool :=
  if x.1 = y.1 then
    if x.2.1 = y.2.1 then strLt x.2.2 y.2.2 || decide (x.2.2 = y.2.2)
    else strLt x.2.1 y.2.1
  else strLt x.1 y.1

/-- Model of Python `sorted` on (distinct) keys: any sort by `keyLe`; insertion
    sort is used so that the definition evaluates by kernel reduction. -/
def sortKeys (ks : List EventKey) : List EventKey :=
  List.insertionSort (fun a b => keyLe a b) ks

/-- Exactly `p` decimal digits of `a` (modulo `10 ^ p`), most significant first. -/
def fracDigits : ℕ → ℕ → String
  | 0, _ => ""
  | k + 1, a => (fracDigits k (a / 10)).push (Nat.digitChar (a % 10))

/-- Model of the f-string `f"{value:.{p}f}"` applied to a `Decimal` whose exact
    value is `m / 10 ^ p`: optional sign, integer part, and for `p > 0` a dot
    followed by exactly `p` digits.  (On such values fixed-point formatting is
    exact, so no rounding occurs here.) -/
def formatQty (m : ℤ) (p : ℕ) : String :=
  let a := m.natAbs
  let body :=
    if p = 0 then Nat.repr a
    else Nat.repr (a / 10 ^ p) ++ "." ++ fracDigits p (a % 10 ^ p)
  if m < 0 then "-" ++ body else body

/-- One output line of `display_results`. -/
def formatLine (k : EventKey) (m : ℤ) (p : ℕ) : String :=
  k.1 ++ "," ++ k.2.1 ++ "," ++ k.2.2 ++ "," ++ formatQty m p

/-- Model of `display_results(events, precision)`: the list of printed lines, one
    per key of the map in sorted key order. -/
def display_results (events : AggMap) (precision : ℕ) : List String :=
  (sortKeys (mapKeys events)).map
    (fun k => formatLine k ((getVal events k).getD 0) precision)

/-! ## Lemmas about the aggregate map -/

theorem getVal_addTo_self (m : AggMap) (k : EventKey) (d : ℤ) :
    getVal (addTo m k d) k = some ((getVal m k).getD 0 + d) := by
  induction m with
  | nil => simp [addTo, getVal]
  | cons h t ih =>
    obtain ⟨k0, v⟩ := h
    by_cases hk : k = k0
    · subst hk; simp [addTo, getVal]
    · simp [addTo, getVal, hk, ih]

theorem getVal_addTo_ne (m : AggMap) {k k2 : EventKey} (d : ℤ) (h : k ≠ k2) :
    getVal (addTo m k2 d) k = getVal m k := by
  induction m with
  | nil => simp [addTo, getVal, h]
  | cons hd t ih =>
    obtain ⟨k0, v⟩ := hd
    by_cases hk : k2 = k0
    · subst hk; simp [addTo, getVal, h]
    · by_cases hk0 : k = k0 <;> simp [addTo, getVal, hk, hk0, ih]

theorem mapKeys_cons (k0 : EventKey) (v : ℤ) (t : AggMap) :
    mapKeys ((k0, v) :: t) = k0 :: mapKeys t := rfl

theorem mem_mapKeys_iff (m : AggMap) (k : EventKey) :
    k ∈ mapKeys m ↔ (getVal m k).isSome = true := by
  induction m with
  | nil => simp [mapKeys, getVal]
  | cons hd t ih =>
    obtain ⟨k0, v⟩ := hd
    rw [mapKeys_cons, List.mem_cons]
    by_cases hk : k = k0
    · subst hk; simp [getVal]
    · simp [getVal, hk, ih]

theorem mem_mapKeys_addTo_self (m : AggMap) (k : EventKey) (d : ℤ) :
    k ∈ mapKeys (addTo m k d) := by
  rw [mem_mapKeys_iff, getVal_addTo_self]
  rfl

theorem mem_mapKeys_addTo_of_mem (m : AggMap) {k : EventKey} (k2 : EventKey) (d : ℤ)
    (h : k ∈ mapKeys m) : k ∈ mapKeys (addTo m k2 d) := by
  by_cases hk : k = k2
  · subst hk; exact mem_mapKeys_addTo_self m k d
  · rw [mem_mapKeys_iff, getVal_addTo_ne m d hk]
    rw [mem_mapKeys_iff] at h
    exact h

theorem addTo_zero_of_mem (m : AggMap) {k : EventKey} (h : k ∈ mapKeys m) :
    addTo m k 0 = m := by
  induction m with
  | nil => simp [mapKeys] at h
  | cons hd t ih =>
    obtain ⟨k0, v⟩ := hd
    rw [mapKeys_cons, List.mem_cons] at h
    by_cases hk : k = k0
    · subst hk; simp [addTo]
    · rcases h with h0 | h0
      · exact absurd h0 hk
      · simp [addTo, hk, ih h0]

theorem addTo_of_notMem (m : AggMap) {k : EventKey} (d : ℤ) (h : k ∉ mapKeys m) :
    addTo m k d = m ++ [(k, d)] := by
  induction m with
  | nil => simp [addTo]
  | cons hd t ih =>
    obtain ⟨k0, v⟩ := hd
    rw [mapKeys_cons, List.mem_cons] at h
    push_neg at h
    simp [addTo, h.1, ih h.2]

theorem addTo_addTo_same (m : AggMap) (k : EventKey) (v d : ℤ) :
    addTo (addTo m k v) k d = addTo m k (v + d) := by
  induction m with
  | nil => simp [addTo, add_assoc]
  | cons hd t ih =>
    obtain ⟨k0, w⟩ := hd
    by_cases hk : k = k0
    · subst hk; simp [addTo, add_assoc]
    · simp [addTo, hk, ih]

theorem addTo_comm_of_mem (m : AggMap) {k : EventKey} (k2 : EventKey) (d d2 : ℤ)
    (h : k ∈ mapKeys m) :
    addTo (addTo m k d) k2 d2 = addTo (addTo m k2 d2) k d := by
  by_cases hk : k2 = k
  · subst hk
    rw [addTo_addTo_same, addTo_addTo_same, add_comm]
  · induction m with
    | nil => simp [mapKeys] at h
    | cons hd t ih =>
      obtain ⟨k0, v⟩ := hd
      rw [mapKeys_cons, List.mem_cons] at h
      by_cases h1 : k = k0
      · subst h1
        simp [addTo, hk, Ne.symm hk]
      · rcases h with h0 | h0
        · exact absurd h0 h1
        · by_cases h2 : k2 = k0 <;> simp [addTo, h1, h2, ih h0]

theorem mergeInto_nil (acc : AggMap) : mergeInto acc [] = acc := rfl

theorem mergeInto_cons (acc : AggMap) (k : EventKey) (v : ℤ) (t : AggMap) :
    mergeInto acc ((k, v) :: t) = mergeInto (addTo acc k v) t := rfl

theorem mergeInto_addTo_of_mem (t : AggMap) :
    ∀ (b : AggMap) {k : EventKey} (d : ℤ), k ∈ mapKeys b →
      mergeInto (addTo b k d) t = addTo (mergeInto b t) k d := by
  induction t with
  | nil => intro b k d _; rfl
  | cons hd t2 ih =>
    intro b k d hk
    obtain ⟨k2, d2⟩ := hd
    rw [mergeInto_cons, mergeInto_cons, addTo_comm_of_mem b k2 d d2 hk,
      ih (addTo b k2 d2) d (mem_mapKeys_addTo_of_mem b k2 d2 hk)]

theorem mergeInto_addTo (m : AggMap) :
    ∀ (acc : AggMap) (k : EventKey) (d : ℤ),
      mergeInto acc (addTo m k d) = addTo (mergeInto acc m) k d := by
  induction m with
  | nil => intro acc k d; rfl
  | cons hd t ih =>
    intro acc k d
    obtain ⟨k0, v⟩ := hd
    by_cases hk : k = k0
    · subst hk
      have h1 : addTo ((k, v) :: t) k d = (k, v + d) :: t := by simp [addTo]
      rw [h1, mergeInto_cons, mergeInto_cons,
        show addTo acc k (v + d) = addTo (addTo acc k v) k d from
          (addTo_addTo_same acc k v d).symm,
        mergeInto_addTo_of_mem t (addTo acc k v) d (mem_mapKeys_addTo_self acc k v)]
    · have h1 : addTo ((k0, v) :: t) k d = (k0, v) :: addTo t k d := by simp [addTo, hk]
      rw [h1, mergeInto_cons, mergeInto_cons, ih]

/-! ## The per-event update as a single `addTo` -/

/-- The signed contribution of one validated event under the cutoff rule. -/
def stepDelta (target : Date) (e : Event) : ℤ :=
  if dateLe e.event_date target then
    (if e.event_type = .VEST then e.quantity else -e.quantity)
  else 0

theorem stepEvent_eq_addTo (target : Date) (m : AggMap) (e : Event) :
    stepEvent target m e = addTo m (eventKey e) (stepDelta target e) := by
  unfold stepEvent stepDelta
  by_cases hd : dateLe e.event_date target
  · by_cases ht : e.event_type = EType.VEST <;> simp [hd, ht]
  · by_cases hm : eventKey e ∈ mapKeys m
    · simp [hd, hm, addTo_zero_of_mem m hm]
    · simp [hd, hm, addTo_of_notMem m 0 hm]

/-- The map transformation of one (validated or not) row, shared by the batch model
    and the spec single pass. -/
def stepRowM (target : Date) (precision : ℕ) (m : AggMap) (r : RawRow) : AggMap :=
  match validateRowCore r precision with
  | .inl _ => m
  | .inr e => stepEvent target m e

theorem specSinglePass_eq_foldl (rows : List RawRow) (target : Date) (precision : ℕ) :
    specSinglePass rows target precision = rows.foldl (stepRowM target precision) [] := rfl

theorem mergeInto_stepRowM (target : Date) (precision : ℕ) (acc m : AggMap) (r : RawRow) :
    mergeInto acc (stepRowM target precision m r) =
      stepRowM target precision (mergeInto acc m) r := by
  cases hv : validateRowCore r precision with
  | inl e => simp [stepRowM, hv]
  | inr e =>
    simp only [stepRowM, hv]
    rw [stepEvent_eq_addTo, stepEvent_eq_addTo, mergeInto_addTo]

theorem mergeInto_foldl_stepRowM (target : Date) (precision : ℕ) (rows : List RawRow) :
    ∀ (acc m : AggMap),
      mergeInto acc (rows.foldl (stepRowM target precision) m) =
        rows.foldl (stepRowM target precision) (mergeInto acc m) := by
  induction rows with
  | nil => intro acc m; rfl
  | cons r rows ih =>
    intro acc m
    simpa [List.foldl_cons, mergeInto_stepRowM] using
      ih acc (stepRowM target precision m r)

/-! ## Projections of `process_batch` -/

theorem foldl_stepRow_fst (target : Date) (precision : ℕ) (batch_index : ℕ) :
    ∀ (batch : List (ℕ × RawRow)) (st : AggMap × ℕ × List String),
      (batch.foldl (stepRow target precision batch_index) st).1 =
        batch.foldl (fun m ir => stepRowM target precision m ir.2) st.1 := by
  intro batch
  induction batch with
  | nil => intro st; rfl
  | cons ir b ih =>
    intro st
    rw [List.foldl_cons, List.foldl_cons, ih]
    cases hv : validateRowCore ir.2 precision with
    | inl e => simp [stepRow, validate_row, hv, stepRowM]
    | inr e => simp [stepRow, validate_row, hv, stepRowM]

theorem process_batch_fst (batch : List (ℕ × RawRow)) (target : Date) (precision : ℕ)
    (batch_index : ℕ) :
    (process_batch batch target precision batch_index).1 =
      (batch.map Prod.snd).foldl (stepRowM target precision) [] := by
  rw [process_batch, foldl_stepRow_fst, List.foldl_map]

/-! ## Chunking -/

theorem chunksGo_flatten (n : ℕ) :
    ∀ (fuel : ℕ) (l : List α), l.length ≤ fuel → (chunksGo n fuel l).flatten = l := by
  intro fuel
  induction fuel with
  | zero =>
    intro l h
    cases l with
    | nil => rfl
    | cons x xs => simp at h
  | succ f ih =>
    intro l h
    cases l with
    | nil => rfl
    | cons x xs =>
      have hlen : xs.length ≤ f := by
        simp only [List.length_cons] at h
        omega
      have hd : (x :: xs).drop (n + 1) = xs.drop n := rfl
      calc (chunksGo n (f + 1) (x :: xs)).flatten
          = (x :: xs).take (n + 1) ++ (chunksGo n f (xs.drop n)).flatten := by
            simp [chunksGo]
        _ = (x :: xs).take (n + 1) ++ xs.drop n := by
            rw [ih (xs.drop n) (by rw [List.length_drop]; omega)]
        _ = (x :: xs).take (n + 1) ++ (x :: xs).drop (n + 1) := by rw [hd]
        _ = x :: xs := List.take_append_drop _ _

theorem chunksSucc_flatten (n : ℕ) (l : List α) : (chunksSucc n l).flatten = l :=
  chunksGo_flatten n l.length l le_rfl

/-! ## The map component of `process_csv` -/

theorem process_csv_fold_fst (target : Date) (precision : ℕ) :
    ∀ (bs : List (List (ℕ × RawRow))) (i : ℕ) (st : AggMap × ℕ × List String),
      (((List.enumFrom i bs)).foldl
          (fun st ib =>
            let r := process_batch ib.2 target precision ib.1
            (mergeInto st.1 r.1, st.2.1 + r.2.1, st.2.2 ++ r.2.2)) st).1 =
        ((bs.map (List.map Prod.snd)).flatten).foldl (stepRowM target precision) st.1 := by
  intro bs
  induction bs with
  | nil => intro i st; rfl
  | cons b bs ih =>
    intro i st
    rw [List.enumFrom_cons, List.foldl_cons]
    rw [ih (i + 1)]
    have h1 : mergeInto st.1 (process_batch b target precision i).1 =
        (b.map Prod.snd).foldl (stepRowM target precision) st.1 := by
      rw [process_batch_fst, mergeInto_foldl_stepRowM]
      rfl
    simp only [List.map_cons, List.flatten_cons, List.foldl_append]
    rw [h1]

/-! ## Claim C3 -/

/-- C3: for every input row sequence, target date and precision, processing in
    consecutive batches of 100 with `process_batch` and merging each partial map
    into the running total by key-wise summation, as `process_csv` does, yields
    exactly the same final aggregate map (values and insertion order alike) as a
    single in-order pass applying the cutoff and zero-carry rule to all rows. -/
theorem c3_batched_equals_single_pass (rows : List RawRow) (target : Date) (precision : ℕ) :
    (process_csv rows target precision).1 = specSinglePass rows target precision := by
  have h1 : (process_csv rows target precision).1 =
      ((chunksSucc 99 rows.enum).map (List.map Prod.snd)).flatten.foldl
        (stepRowM target precision) [] :=
    process_csv_fold_fst target precision (chunksSucc 99 rows.enum) 0 ([], 0, [])
  rw [h1, ← List.map_flatten, chunksSucc_flatten, List.enum_map_snd]
  rfl

/-! ## Claim C2 -/

/-- The aggregate map built from a sequence of already-validated events, i.e. the
    loop of `process_batch` restricted to its valid rows. -/
def processBatchEvents (target : Date) (evs : List Event) : AggMap :=
  evs.foldl (stepEvent target) []

/-- C2: processing one more validated event: a VEST on or before the target date
    adds its quantity at the event's key, a CANCEL on or before subtracts it, a
    later event whose key is absent inserts the key with value 0, and a later
    event whose key is present leaves the map unchanged. -/
theorem c2_event_step_cases (target : Date) (evs : List Event) (e : Event) :
    (dateLe e.event_date target = true → e.event_type = EType.VEST →
      getVal (processBatchEvents target (evs ++ [e])) (eventKey e) =
        some ((getVal (processBatchEvents target evs) (eventKey e)).getD 0 + e.quantity)) ∧
    (dateLe e.event_date target = true → e.event_type = EType.CANCEL →
      getVal (processBatchEvents target (evs ++ [e])) (eventKey e) =
        some ((getVal (processBatchEvents target evs) (eventKey e)).getD 0 - e.quantity)) ∧
    (dateLe e.event_date target = false →
      eventKey e ∉ mapKeys (processBatchEvents target evs) →
      processBatchEvents target (evs ++ [e]) =
        processBatchEvents target evs ++ [(eventKey e, 0)]) ∧
    (dateLe e.event_date target = false →
      eventKey e ∈ mapKeys (processBatchEvents target evs) →
      processBatchEvents target (evs ++ [e]) = processBatchEvents target evs) := by
  have hstep : processBatchEvents target (evs ++ [e]) =
      stepEvent target (processBatchEvents target evs) e := by
    unfold processBatchEvents
    rw [List.foldl_append]
    rfl
  refine ⟨?_, ?_, ?_, ?_⟩ <;> intro h1 h2 <;> rw [hstep]
  · rw [stepEvent_eq_addTo, getVal_addTo_self]
    simp [stepDelta, h1, h2]
  · rw [stepEvent_eq_addTo, getVal_addTo_self]
    simp [stepDelta, h1, h2, sub_eq_add_neg]
  · simp [stepEvent, h1, h2]
  · simp [stepEvent, h1, h2]

def c2DemoDate : Date := ⟨2024, 6, 1⟩

def c2EvVest : Event := ⟨.VEST, "E", "N", "A", ⟨2024, 1, 1⟩, 5⟩

def c2EvCancel : Event := ⟨.CANCEL, "E", "N", "A", ⟨2024, 2, 1⟩, 3⟩

def c2EvFuture : Event := ⟨.VEST, "E", "N", "A", ⟨2025, 1, 1⟩, 7⟩

/-- Witness for C2: each of the four cases evaluated at a concrete input. -/
theorem c2_event_step_cases_witness :
    getVal (processBatchEvents c2DemoDate ([] ++ [c2EvVest])) ("E", "N", "A") = some 5 ∧
    getVal (processBatchEvents c2DemoDate ([c2EvVest] ++ [c2EvCancel])) ("E", "N", "A") =
      some 2 ∧
    processBatchEvents c2DemoDate ([] ++ [c2EvFuture]) = [(("E", "N", "A"), 0)] ∧
    processBatchEvents c2DemoDate ([c2EvVest] ++ [c2EvFuture]) =
      processBatchEvents c2DemoDate [c2EvVest] := by
  refine ⟨?_, ?_, ?_, ?_⟩
  · have h := (c2_event_step_cases c2DemoDate [] c2EvVest).1 (by decide) (by decide)
    simpa using h
  · have h := (c2_event_step_cases c2DemoDate [c2EvVest] c2EvCancel).2.1 (by decide) (by decide)
    simpa using h
  · have h := (c2_event_step_cases c2DemoDate [] c2EvFuture).2.2.1 (by decide) (by decide)
    simpa using h
  · exact (c2_event_step_cases c2DemoDate [c2EvVest] c2EvFuture).2.2.2 (by decide) (by decide)

/-! ## Claim C6 -/

def sumVest (evs : List Event) : ℤ :=
  ((evs.filter (fun e => e.event_type = EType.VEST)).map Event.quantity).sum

def sumCancel (evs : List Event) : ℤ :=
  ((evs.filter (fun e => e.event_type = EType.CANCEL)).map Event.quantity).sum

theorem sumVest_cons (e : Event) (evs : List Event) :
    sumVest (e :: evs) =
      (if e.event_type = EType.VEST then e.quantity else 0) + sumVest evs := by
  by_cases h : e.event_type = EType.VEST <;> simp [sumVest, h]

theorem sumCancel_cons (e : Event) (evs : List Event) :
    sumCancel (e :: evs) =
      (if e.event_type = EType.CANCEL then e.quantity else 0) + sumCancel evs := by
  by_cases h : e.event_type = EType.CANCEL <;> simp [sumCancel, h]

theorem etype_not_vest {e : Event} (h : ¬ e.event_type = EType.VEST) :
    e.event_type = EType.CANCEL := by
  cases ht : e.event_type
  · exact absurd ht h
  · rfl

/-- Single-key aggregation: folding events that all carry the key `k` and all lie
    on or before the target date adds the VEST total minus the CANCEL total to the
    value at `k`. -/
theorem getVal_fold_allKey (target : Date) {k : EventKey} :
    ∀ (evs : List Event) (m : AggMap),
      (∀ e ∈ evs, eventKey e = k) → (∀ e ∈ evs, dateLe e.event_date target = true) →
      k ∈ mapKeys m →
      getVal (evs.foldl (stepEvent target) m) k =
        some ((getVal m k).getD 0 + (sumVest evs - sumCancel evs)) := by
  intro evs
  induction evs with
  | nil =>
    intro m _ _ hm
    rcases Option.isSome_iff_exists.mp ((mem_mapKeys_iff m k).mp hm) with ⟨v, hv⟩
    simp [sumVest, sumCancel, hv]
  | cons e evs ih =>
    intro m hk hd hm
    have hk0 : eventKey e = k := hk e (by simp)
    have hd0 : dateLe e.event_date target = true := hd e (by simp)
    rw [List.foldl_cons, stepEvent_eq_addTo, hk0]
    rw [ih (addTo m k (stepDelta target e)) (fun x hx => hk x (by simp [hx]))
      (fun x hx => hd x (by simp [hx])) (mem_mapKeys_addTo_self m k _)]
    rw [getVal_addTo_self]
    refine congrArg some ?_
    by_cases ht : e.event_type = EType.VEST
    · rw [sumVest_cons, sumCancel_cons]
      simp only [stepDelta, hd0, ht, if_true, Option.getD_some]
      rw [show (if EType.VEST = EType.CANCEL then e.quantity else 0) = 0 from
        if_neg (by decide)]
      ring
    · have hc := etype_not_vest ht
      rw [sumVest_cons, sumCancel_cons]
      simp only [stepDelta, hd0, hc, if_true, Option.getD_some]
      rw [show (if EType.CANCEL = EType.VEST then e.quantity else -e.quantity) =
            -e.quantity from if_neg (by decide),
        show (if EType.CANCEL = EType.VEST then e.quantity else 0) = 0 from
          if_neg (by decide)]
      ring

/-- C6: for a key whose valid events all lie on or before the target date, if the
    CANCEL total exceeds the VEST total then the aggregated value is the negative
    signed difference; no clamping to zero is performed. -/
theorem c6_negative_no_clamp (target : Date) (k : EventKey) (evs : List Event)
    (hk : ∀ e ∈ evs, eventKey e = k)
    (hd : ∀ e ∈ evs, dateLe e.event_date target = true)
    (hne : evs ≠ []) (hneg : sumVest evs < sumCancel evs) :
    getVal (processBatchEvents target evs) k = some (sumVest evs - sumCancel evs) ∧
    sumVest evs - sumCancel evs < 0 := by
  constructor
  · cases evs with
    | nil => exact absurd rfl hne
    | cons e rest =>
      have hk0 : eventKey e = k := hk e (by simp)
      have hd0 : dateLe e.event_date target = true := hd e (by simp)
      unfold processBatchEvents
      rw [List.foldl_cons, stepEvent_eq_addTo, hk0,
        show addTo [] k (stepDelta target e) = [(k, stepDelta target e)] from rfl]
      rw [getVal_fold_allKey target rest [(k, stepDelta target e)]
        (fun x hx => hk x (by simp [hx])) (fun x hx => hd x (by simp [hx]))
        (by simp [mapKeys])]
      refine congrArg some ?_
      have hg : getVal [(k, stepDelta target e)] k = some (stepDelta target e) := by
        simp [getVal]
      rw [hg]
      by_cases ht : e.event_type = EType.VEST
      · rw [sumVest_cons, sumCancel_cons]
        simp only [stepDelta, hd0, ht, if_true, Option.getD_some]
        rw [show (if EType.VEST = EType.CANCEL then e.quantity else 0) = 0 from
          if_neg (by decide)]
        ring
      · have hc := etype_not_vest ht
        rw [sumVest_cons, sumCancel_cons]
        simp only [stepDelta, hd0, hc, if_true, Option.getD_some]
        rw [show (if EType.CANCEL = EType.VEST then e.quantity else -e.quantity) =
              -e.quantity from if_neg (by decide),
          show (if EType.CANCEL = EType.VEST then e.quantity else 0) = 0 from
            if_neg (by decide)]
        ring
  · omega

def c6EvCancel : Event := ⟨.CANCEL, "E", "N", "A", ⟨2024, 1, 1⟩, 5⟩

/-- Witness for C6 at a concrete single-CANCEL input. -/
theorem c6_negative_no_clamp_witness :
    getVal (processBatchEvents ⟨2024, 2, 1⟩ [c6EvCancel]) ("E", "N", "A") =
      some (sumVest [c6EvCancel] - sumCancel [c6EvCancel]) ∧
    sumVest [c6EvCancel] - sumCancel [c6EvCancel] < 0 :=
  c6_negative_no_clamp ⟨2024, 2, 1⟩ ("E", "N", "A") [c6EvCancel]
    (by decide) (by decide) (by decide) (by decide)

/-! ## Claim C7 -/

/-- Whether `validate_row` rejects the row (independently of the index, which only
    appears in the message). -/
def isErrRow (precision : ℕ) (r : RawRow) : Bool :=
  match validateRowCore r precision with
  | .inl _ => true
  | .inr _ => false

/-- The message recorded by `process_batch` for one indexed row, when invalid. -/
def rowMsg (precision batch_index : ℕ) (ir : ℕ × RawRow) : Option String :=
  match validateRowCore ir.2 precision with
  | .inl e => some (errMsg e (batch_index * BATCH_SIZE + ir.1) ir.2)
  | .inr _ => none

/-- The validated event of one row, when valid. -/
def rowEvent (precision : ℕ) (r : RawRow) : Option Event :=
  match validateRowCore r precision with
  | .inl _ => none
  | .inr e => some e

/-- A `DictReader` row seen as a raw dictionary: every field name is present. -/
def completeDict (r : RawRow) : RawDict := fun f => some (r.get f)

theorem foldl_stepRow_cnt (target : Date) (precision batch_index : ℕ) :
    ∀ (batch : List (ℕ × RawRow)) (st : AggMap × ℕ × List String),
      (batch.foldl (stepRow target precision batch_index) st).2.1 =
        st.2.1 + ((batch.map Prod.snd).filter (isErrRow precision)).length := by
  intro batch
  induction batch with
  | nil => intro st; rfl
  | cons ir b ih =>
    intro st
    rw [List.foldl_cons, ih]
    cases hv : validateRowCore ir.2 precision with
    | inl e => simp [stepRow, validate_row, hv, isErrRow]; omega
    | inr e => simp [stepRow, validate_row, hv, isErrRow]

theorem foldl_stepRow_msgs (target : Date) (precision batch_index : ℕ) :
    ∀ (batch : List (ℕ × RawRow)) (st : AggMap × ℕ × List String),
      (batch.foldl (stepRow target precision batch_index) st).2.2 =
        st.2.2 ++ batch.filterMap (rowMsg precision batch_index) := by
  intro batch
  induction batch with
  | nil => intro st; simp
  | cons ir b ih =>
    intro st
    rw [List.foldl_cons, ih]
    cases hv : validateRowCore ir.2 precision with
    | inl e => simp [stepRow, validate_row, hv, rowMsg]
    | inr e => simp [stepRow, validate_row, hv, rowMsg]

theorem foldl_stepRowM_filterMap (target : Date) (precision : ℕ) :
    ∀ (rows : List RawRow) (m : AggMap),
      rows.foldl (stepRowM target precision) m =
        (rows.filterMap (rowEvent precision)).foldl (stepEvent target) m := by
  intro rows
  induction rows with
  | nil => intro m; rfl
  | cons r rows ih =>
    intro m
    cases hv : validateRowCore r precision with
    | inl e => simp [stepRowM, hv, rowEvent, ih]
    | inr e => simp [stepRowM, hv, rowEvent, ih]

theorem checkRequired_complete (r : RawRow) :
    ∀ fs : List EField,
      checkRequired (completeDict r) fs = .ok (fs.any (fun f => isBlankVal (r.get f))) := by
  intro fs
  induction fs with
  | nil => rfl
  | cons f fs ih =>
    by_cases h : isBlankVal (r.get f) = true
    · simp [checkRequired, completeDict, h]
    · simp [checkRequired, completeDict, h, ih]

theorem toRawRow_complete (r : RawRow) : toRawRow (completeDict r) = r := rfl

/-- The raw-dictionary interface of `validate_row` never raises on a `DictReader`
    row (all six keys present) and agrees with the validation result. -/
theorem validate_row_raw_complete (r : RawRow) (precision : ℕ) :
    validate_row_raw (completeDict r) precision = .ok (validateRowCore r precision) := by
  unfold validate_row_raw validateRowCore
  rw [checkRequired_complete]
  by_cases h : FIELD_NAMES.any (fun f => isBlankVal (r.get f)) = true
  · simp [h]
  · rw [Bool.not_eq_true] at h
    simp [h, toRawRow_complete]

/-- C7: rows rejected by `validate_row` contribute nothing to the aggregate map
    (which is the fold of the cutoff rule over the valid events only), the error
    count is exactly the number of invalid rows, exactly one message is recorded
    per invalid row in row order, and validation on `DictReader` rows never reaches
    the `KeyError` branch, so `process_batch` and `process_csv` always run to
    completion and return the map. -/
theorem c7_errors_recorded_no_abort (batch : List (ℕ × RawRow)) (target : Date)
    (precision batch_index : ℕ) :
    (process_batch batch target precision batch_index).1 =
      ((batch.map Prod.snd).filterMap (rowEvent precision)).foldl (stepEvent target) [] ∧
    (process_batch batch target precision batch_index).2.1 =
      ((batch.map Prod.snd).filter (isErrRow precision)).length ∧
    (process_batch batch target precision batch_index).2.2 =
      batch.filterMap (rowMsg precision batch_index) ∧
    ∀ r : RawRow, validate_row_raw (completeDict r) precision =
      .ok (validateRowCore r precision) := by
  refine ⟨?_, ?_, ?_, fun r => validate_row_raw_complete r precision⟩
  · rw [process_batch_fst, foldl_stepRowM_filterMap]
  · rw [process_batch, foldl_stepRow_cnt]
    exact Nat.zero_add _
  · rw [process_batch, foldl_stepRow_msgs]
    rfl

/-! ## Claim C4 -/

theorem tZeroDiv_natAbs (n : ℤ) (k : ℕ) : (tZeroDiv n k).natAbs = n.natAbs / 10 ^ k := by
  unfold tZeroDiv
  by_cases h : 0 ≤ n
  · rw [if_pos h, Int.natAbs_ofNat]
  · rw [if_neg h, Int.natAbs_neg, Int.natAbs_ofNat]

theorem tZeroDiv_nonneg (n : ℤ) (k : ℕ) (h : 0 ≤ n) : 0 ≤ tZeroDiv n k := by
  unfold tZeroDiv
  rw [if_pos h]
  positivity

theorem tZeroDiv_nonpos (n : ℤ) (k : ℕ) (h : n ≤ 0) : tZeroDiv n k ≤ 0 := by
  unfold tZeroDiv
  by_cases h2 : 0 ≤ n
  · have h0 : n = 0 := le_antisymm h h2
    subst h0
    simp
  · rw [if_neg h2]
    exact neg_nonpos.mpr (by positivity)

/-- Truncation toward zero, in scaled-integer form: the quantized value
    `m / 10 ^ p` lies between 0 and the exact value `n / 10 ^ s` and differs from it
    by less than one unit in the last kept place, `10 ^ (-p)`.  Both inequalities
    are stated cross-multiplied by `10 ^ (s + p)` so that they read on `ℕ`. -/
theorem quantizeDown_trunc (n : ℤ) (s p : ℕ) :
    (quantizeDown n s p).natAbs * 10 ^ s ≤ n.natAbs * 10 ^ p ∧
    n.natAbs * 10 ^ p - (quantizeDown n s p).natAbs * 10 ^ s < 10 ^ s ∧
    (0 ≤ n → 0 ≤ quantizeDown n s p) ∧ (n ≤ 0 → quantizeDown n s p ≤ 0) := by
  unfold quantizeDown
  by_cases h : s ≤ p
  · rw [if_pos h]
    have habs : (n * 10 ^ (p - s)).natAbs = n.natAbs * 10 ^ (p - s) := by
      rw [Int.natAbs_mul, Int.natAbs_pow]
      rfl
    have hpow : n.natAbs * 10 ^ (p - s) * 10 ^ s = n.natAbs * 10 ^ p := by
      rw [mul_assoc, ← pow_add]
      congr 2
      omega
    refine ⟨?_, ?_, ?_, ?_⟩
    · rw [habs, hpow]
    · rw [habs, hpow, Nat.sub_self]
      positivity
    · intro hn
      positivity
    · intro hn
      exact mul_nonpos_of_nonpos_of_nonneg hn (by positivity)
  · rw [if_neg h]
    set k := s - p with hk
    set a := n.natAbs with ha
    have hsk : s = k + p := by omega
    have h1 : a / 10 ^ k * 10 ^ k + a % 10 ^ k = a := Nat.div_add_mod' a (10 ^ k)
    have h2 : a % 10 ^ k < 10 ^ k := Nat.mod_lt a (by positivity)
    have habs : (tZeroDiv n k).natAbs = a / 10 ^ k := tZeroDiv_natAbs n k
    have hpow : (10 : ℕ) ^ s = 10 ^ k * 10 ^ p := by
      rw [← pow_add]
      congr 1
    refine ⟨?_, ?_, tZeroDiv_nonneg n k, tZeroDiv_nonpos n k⟩
    · rw [habs, hpow, ← mul_assoc]
      exact Nat.mul_le_mul_right _ (Nat.div_mul_le_self _ _)
    · rw [habs, hpow, ← mul_assoc]
      have h3 : a * 10 ^ p - a / 10 ^ k * 10 ^ k * 10 ^ p =
          (a - a / 10 ^ k * 10 ^ k) * 10 ^ p := (Nat.sub_mul _ _ _).symm
      rw [h3]
      have h4 : a - a / 10 ^ k * 10 ^ k < 10 ^ k := by omega
      exact Nat.mul_lt_mul_of_lt_of_le h4 (le_refl _) (by positivity)

def c4RowTrunc : RawRow :=
  ⟨some "VEST", some "E1", some "Alice", some "A1", some "2024-01-01", some "1.999"⟩

def c4RowBadQty : RawRow :=
  ⟨some "VEST", some "E1", some "Alice", some "A1", some "2024-01-01", some "abc"⟩

/-- C4: quantity strings are parsed exactly and quantized by truncation toward
    zero: at precision 2 the input "1.999" validates to the scaled quantity 199
    (the exact value 1.99, not the round-to-nearest 2.00); an unparseable quantity
    yields the invalid-quantity error; and in general the quantized value lies
    between 0 and the exact parsed value, within `10 ^ (-p)` of it. -/
theorem c4_quantity_truncation :
    validate_row c4RowTrunc 0 2 = .inr ⟨.VEST, "E1", "Alice", "A1", ⟨2024, 1, 1⟩, 199⟩ ∧
    validate_row c4RowBadQty 0 2 = .inl (errMsg .badQty 0 c4RowBadQty) ∧
    ∀ (n : ℤ) (s p : ℕ),
      (quantizeDown n s p).natAbs * 10 ^ s ≤ n.natAbs * 10 ^ p ∧
      n.natAbs * 10 ^ p - (quantizeDown n s p).natAbs * 10 ^ s < 10 ^ s ∧
      (0 ≤ n → 0 ≤ quantizeDown n s p) ∧ (n ≤ 0 → quantizeDown n s p ≤ 0) :=
  ⟨by decide, by decide, quantizeDown_trunc⟩

/-- Witness for C4: the sign clauses of the truncation bound discharged at the
    concrete parse of "1.999" (and its negation) at precision 2. -/
theorem c4_quantity_truncation_witness :
    ((quantizeDown 1999 3 2).natAbs * 10 ^ 3 ≤ (1999 : ℤ).natAbs * 10 ^ 2 ∧
      0 ≤ quantizeDown 1999 3 2) ∧
    quantizeDown (-1999) 3 2 ≤ 0 := by
  refine ⟨⟨(c4_quantity_truncation.2.2 1999 3 2).1, ?_⟩, ?_⟩
  · exact (c4_quantity_truncation.2.2 1999 3 2).2.2.1 (by decide)
  · exact (c4_quantity_truncation.2.2 (-1999) 3 2).2.2.2 (by decide)

/-! ## Claim C8 -/

/-- Check-1 failure: some required field is absent-as-`None` or blank. -/
def missingP (row : RawRow) : Bool :=
  FIELD_NAMES.any (fun f => isBlankVal (row.get f))

/-- The raw event-type string of a row, as read by checks 2 and onward. -/
def rowEt (row : RawRow) : String := (row.get .event_type).getD ""

/-- Check-2 failure: event type outside VEST/CANCEL. -/
def badTypeP (row : RawRow) : Bool :=
  ¬ (rowEt row = "VEST" ∨ rowEt row = "CANCEL")

/-- Check-3 failure: the date does not parse. -/
def badDateP (row : RawRow) : Bool :=
  (strptimeYmd ((row.get .date).getD "")).isNone

/-- Check-4 failure: the quantity does not parse. -/
def badQtyP (row : RawRow) : Bool :=
  (pyDecimalParse ((row.get .quantity).getD "")).isNone

/-- Check-5 failure: the quantized quantity is negative. -/
def negQtyP (row : RawRow) (precision : ℕ) : Bool :=
  match pyDecimalParse ((row.get .quantity).getD "") with
  | none => false
  | some ns => quantizeDown ns.1 ns.2 precision < 0

/-- C8: the five checks run in the fixed order and `validate_row` returns the error
    of the first failing check, running no further checks; when no check fails the
    validated event is returned.  In particular a row with both an invalid event
    type and an invalid date yields the invalid-event-type error. -/
theorem c8_check_order_first_failure (row : RawRow) (i precision : ℕ) :
    (missingP row = true →
      validate_row row i precision = .inl (errMsg .missing i row)) ∧
    (missingP row = false → badTypeP row = true →
      validate_row row i precision = .inl (errMsg (.badType (rowEt row)) i row)) ∧
    (missingP row = false → badTypeP row = false → badDateP row = true →
      validate_row row i precision = .inl (errMsg .badDate i row)) ∧
    (missingP row = false → badTypeP row = false → badDateP row = false →
      badQtyP row = true →
      validate_row row i precision = .inl (errMsg .badQty i row)) ∧
    (missingP row = false → badTypeP row = false → badDateP row = false →
      badQtyP row = false → negQtyP row precision = true →
      validate_row row i precision = .inl (errMsg .negQty i row)) ∧
    (missingP row = false → badTypeP row = false → badDateP row = false →
      badQtyP row = false → negQtyP row precision = false →
      ∃ ev : Event, validate_row row i precision = .inr ev) := by
  refine ⟨?_, ?_, ?_, ?_, ?_, ?_⟩
  · intro h1
    simp only [missingP] at h1
    simp [validate_row, validateRowCore, h1]
  · intro h1 h2
    simp only [missingP] at h1
    simp only [badTypeP, rowEt, decide_eq_true_eq] at h2
    simp [validate_row, validateRowCore, validateRest, h1, h2, rowEt]
  · intro h1 h2 h3
    simp only [missingP] at h1
    simp only [badTypeP, rowEt, decide_eq_false_iff_not, not_not] at h2
    simp only [badDateP, Option.isNone_iff_eq_none] at h3
    simp [validate_row, validateRowCore, validateRest, h1, h2, h3]
  · intro h1 h2 h3 h4
    simp only [missingP] at h1
    simp only [badTypeP, rowEt, decide_eq_false_iff_not, not_not] at h2
    simp only [badDateP, Option.isNone_iff_eq_none, Bool.not_eq_true] at h3
    simp only [badQtyP, Option.isNone_iff_eq_none] at h4
    rcases hd : strptimeYmd ((row.get .date).getD "") with _ | d
    · rw [hd] at h3
      simp at h3
    · simp [validate_row, validateRowCore, validateRest, h1, h2, hd, h4]
  · intro h1 h2 h3 h4 h5
    simp only [missingP] at h1
    simp only [badTypeP, rowEt, decide_eq_false_iff_not, not_not] at h2
    simp only [badDateP, Option.isNone_iff_eq_none, Bool.not_eq_true] at h3
    simp only [badQtyP, Option.isNone_iff_eq_none, Bool.not_eq_true] at h4
    rcases hd : strptimeYmd ((row.get .date).getD "") with _ | d
    · rw [hd] at h3
      simp at h3
    · rcases hq : pyDecimalParse ((row.get .quantity).getD "") with _ | ns
      · rw [hq] at h4
        simp at h4
      · simp only [negQtyP, hq, decide_eq_true_eq] at h5
        simp [validate_row, validateRowCore, validateRest, h1, h2, hd, hq, h5]
  · intro h1 h2 h3 h4 h5
    simp only [missingP] at h1
    simp only [badTypeP, rowEt, decide_eq_false_iff_not, not_not] at h2
    simp only [badDateP, Option.isNone_iff_eq_none, Bool.not_eq_true] at h3
    simp only [badQtyP, Option.isNone_iff_eq_none, Bool.not_eq_true] at h4
    rcases hd : strptimeYmd ((row.get .date).getD "") with _ | d
    · rw [hd] at h3
      simp at h3
    · rcases hq : pyDecimalParse ((row.get .quantity).getD "") with _ | ns
      · rw [hq] at h4
        simp at h4
      · simp only [negQtyP, hq, decide_eq_false_iff_not, not_lt] at h5
        refine ⟨⟨if (row.get .event_type).getD "" = "VEST" then .VEST else .CANCEL,
          (row.get .emp_id).getD "", (row.get .emp_name).getD "",
          (row.get .award_id).getD "", d, quantizeDown ns.1 ns.2 precision⟩, ?_⟩
        simp [validate_row, validateRowCore, validateRest, h1, h2, hd, hq, not_lt.mpr h5]

def c8RowMissing : RawRow :=
  ⟨some "", some "E1", some "Alice", some "A1", some "2024-01-01", some "1"⟩

def c8RowTypeAndDate : RawRow :=
  ⟨some "VESTED", some "E1", some "Alice", some "A1", some "not-a-date", some "1"⟩

def c8RowDate : RawRow :=
  ⟨some "VEST", some "E1", some "Alice", some "A1", some "2024-13-01", some "1"⟩

def c8RowQty : RawRow :=
  ⟨some "VEST", some "E1", some "Alice", some "A1", some "2024-01-01", some "abc"⟩

def c8RowNeg : RawRow :=
  ⟨some "VEST", some "E1", some "Alice", some "A1", some "2024-01-01", some "-3"⟩

def c8RowValid : RawRow :=
  ⟨some "VEST", some "E1", some "Alice", some "A1", some "2024-01-01", some "1"⟩

/-- Witness for C8: all six cases at concrete rows; in particular the row with both
    a bad event type and a bad date receives the event-type error. -/
theorem c8_check_order_first_failure_witness :
    validate_row c8RowMissing 0 0 = .inl (errMsg .missing 0 c8RowMissing) ∧
    validate_row c8RowTypeAndDate 0 0 =
      .inl (errMsg (.badType (rowEt c8RowTypeAndDate)) 0 c8RowTypeAndDate) ∧
    validate_row c8RowDate 0 0 = .inl (errMsg .badDate 0 c8RowDate) ∧
    validate_row c8RowQty 0 0 = .inl (errMsg .badQty 0 c8RowQty) ∧
    validate_row c8RowNeg 0 0 = .inl (errMsg .negQty 0 c8RowNeg) ∧
    ∃ ev : Event, validate_row c8RowValid 0 0 = .inr ev := by
  refine ⟨?_, ?_, ?_, ?_, ?_, ?_⟩
  · exact (c8_check_order_first_failure c8RowMissing 0 0).1 (by decide)
  · exact (c8_check_order_first_failure c8RowTypeAndDate 0 0).2.1 (by decide) (by decide)
  · exact (c8_check_order_first_failure c8RowDate 0 0).2.2.1 (by decide) (by decide)
      (by decide)
  · exact (c8_check_order_first_failure c8RowQty 0 0).2.2.2.1 (by decide) (by decide)
      (by decide) (by decide)
  · exact (c8_check_order_first_failure c8RowNeg 0 0).2.2.2.2.1 (by decide) (by decide)
      (by decide) (by decide) (by decide)
  · exact (c8_check_order_first_failure c8RowValid 0 0).2.2.2.2.2 (by decide) (by decide)
      (by decide) (by decide) (by decide)

/-! ## Claim C5 -/

/-- Modelled from the spec wording of claim C5: a calendar date in strict
    YYYY-MM-DD format, four-digit year and two-digit zero-padded month and day,
    with no alternative or relaxed forms accepted (year ≥ 1 as for `datetime`). -/
def specStrictDate (s : String) : Option Date :=
  match s.data with
  | [y1, y2, y3, y4, b1, m1, m2, b2, d1, d2] =>
      if b1 = '-' ∧ b2 = '-' ∧ isDigitChar y1 ∧ isDigitChar y2 ∧ isDigitChar y3 ∧
          isDigitChar y4 ∧ isDigitChar m1 ∧ isDigitChar m2 ∧ isDigitChar d1 ∧
          isDigitChar d2 then
        let y := digitsToNat [y1, y2, y3, y4]
        let m := digitsToNat [m1, m2]
        let d := digitsToNat [d1, d2]
        if 1 ≤ y ∧ 1 ≤ m ∧ m ≤ 12 ∧ 1 ≤ d ∧ d ≤ daysInMonth y m then some ⟨y, m, d⟩
        else none
      else none
  | _ => none

def c5RowRelaxed : RawRow :=
  ⟨some "VEST", some "E1", some "Alice", some "A1", some "2024-1-5", some "1"⟩

/-- Counterexample to C5 as stated: "2024-1-5" is not a strict zero-padded
    YYYY-MM-DD date, yet `validate_row` accepts the row instead of returning the
    invalid-date-format error, because `strptime`'s `%m` and `%d` accept one-digit
    month and day. -/
theorem c5_relaxed_date_counterexample :
    specStrictDate "2024-1-5" = none ∧
    validate_row c5RowRelaxed 0 0 = .inr ⟨.VEST, "E1", "Alice", "A1", ⟨2024, 1, 5⟩, 1⟩ :=
  ⟨by decide, by decide⟩

def c5RowBadDate : RawRow :=
  ⟨some "VEST", some "E1", some "Alice", some "A1", some "2024-13-01", some "1"⟩

/-- C5 (amended): for a row passing the presence and event-type checks,
    `validate_row` reports the invalid-date-format error exactly when the date
    field is rejected by the CPython `strptime("%Y-%m-%d")` model: four-digit year
    and in-range month and day that may be either zero-padded two-digit or
    single-digit, forming a valid Gregorian calendar date with year ≥ 1.  Strict
    zero-padding of month and day is not enforced, as the accompanying concrete
    evaluations show, while calendar validity and the four-digit year are. -/
theorem c5_date_error_iff_strptime_fails (row : RawRow) (i precision : ℕ)
    (h1 : missingP row = false) (h2 : badTypeP row = false) :
    (validateRowCore row precision = .inl .badDate ↔
      strptimeYmd ((row.get .date).getD "") = none) ∧
    (validateRowCore row precision = .inl .badDate →
      validate_row row i precision = .inl (errMsg .badDate i row)) ∧
    strptimeYmd "2024-01-05" = some ⟨2024, 1, 5⟩ ∧
    strptimeYmd "2024-1-5" = some ⟨2024, 1, 5⟩ ∧
    strptimeYmd "2023-02-29" = none ∧
    strptimeYmd "2024-13-01" = none ∧
    strptimeYmd "0000-01-01" = none := by
  simp only [missingP] at h1
  simp only [badTypeP, rowEt, decide_eq_false_iff_not, not_not] at h2
  refine ⟨?_, ?_, by decide, by decide, by decide, by decide, by decide⟩
  · rcases hd : strptimeYmd ((row.get .date).getD "") with _ | d
    · simp [validateRowCore, validateRest, h1, h2, hd]
    · rcases hq : pyDecimalParse ((row.get .quantity).getD "") with _ | ns
      · simp [validateRowCore, validateRest, h1, h2, hd, hq]
      · by_cases h5 : quantizeDown ns.1 ns.2 precision < 0
        · simp [validateRowCore, validateRest, h1, h2, hd, hq, h5]
        · simp [validateRowCore, validateRest, h1, h2, hd, hq, h5]
  · intro h
    simp [validate_row, h]

/-- Witness for C5 (amended), applied at a concrete month-13 row. -/
theorem c5_date_error_iff_strptime_fails_witness :
    validateRowCore c5RowBadDate 0 = .inl .badDate ∧
    validate_row c5RowBadDate 3 0 = .inl (errMsg .badDate 3 c5RowBadDate) := by
  have h := c5_date_error_iff_strptime_fails c5RowBadDate 3 0 (by decide) (by decide)
  have h0 : validateRowCore c5RowBadDate 0 = .inl .badDate := h.1.mpr (by decide)
  exact ⟨h0, h.2.1 h0⟩

/-! ## Claim C10 -/

theorem checkRequired_error_iff (row : RawDict) :
    ∀ fs : List EField,
      checkRequired row fs = .error () ↔
        ∃ fs1 f fs2, fs = fs1 ++ f :: fs2 ∧ row f = none ∧
          ∀ g ∈ fs1, ∃ v, row g = some v ∧ isBlankVal v = false := by
  intro fs
  induction fs with
  | nil =>
    constructor
    · intro h
      simp [checkRequired] at h
    · rintro ⟨fs1, f, fs2, hfs, _, _⟩
      exact absurd hfs (by simp)
  | cons f0 fs ih =>
    constructor
    · intro h
      rcases hr : row f0 with _ | v
      · exact ⟨[], f0, fs, rfl, hr, by simp⟩
      · simp only [checkRequired, hr] at h
        by_cases hb : isBlankVal v = true
        · rw [if_pos hb] at h
          exact absurd h (by simp)
        · rw [if_neg hb] at h
          rcases ih.mp h with ⟨fs1, f, fs2, hfs, hf, hall⟩
          refine ⟨f0 :: fs1, f, fs2, by simp [hfs], hf, ?_⟩
          intro g hg
          rcases List.mem_cons.mp hg with h0 | h0
          · subst h0
            exact ⟨v, hr, by simpa using hb⟩
          · exact hall g h0
    · rintro ⟨fs1, f, fs2, hfs, hf, hall⟩
      cases fs1 with
      | nil =>
        rw [List.nil_append] at hfs
        have hf0 : f0 = f := by
          exact (List.cons.injEq f0 fs f fs2).mp hfs |>.1
        subst hf0
        simp only [checkRequired, hf]
      | cons g fs1 =>
        have hg : f0 = g := by
          exact (List.cons.injEq f0 fs g (fs1 ++ f :: fs2)).mp (by simpa using hfs) |>.1
        have hrest : fs = fs1 ++ f :: fs2 := by
          exact (List.cons.injEq f0 fs g (fs1 ++ f :: fs2)).mp (by simpa using hfs) |>.2
        subst hg
        obtain ⟨v, hv, hbv⟩ := hall f0 (by simp)
        simp only [checkRequired, hv, hbv]
        rw [if_neg (by simp [hbv])]
        exact ih.mpr ⟨fs1, f, fs2, hrest, hf, fun g2 hg2 => hall g2 (by simp [hg2])⟩

def c10DictBlankThenAbsent : RawDict := fun f =>
  match f with
  | .quantity => none
  | .event_type => some (some "")
  | _ => some (some "x")

/-- Counterexample to C10 as stated: a dictionary whose `quantity` key is entirely
    absent but whose `event_type` is present and blank makes `validate_row` return
    the missing-field error rather than raise `KeyError`, because the check-1 loop
    returns at the blank `event_type` before ever touching the absent key. -/
theorem c10_missing_key_counterexample :
    c10DictBlankThenAbsent .quantity = none ∧
    validate_row_raw c10DictBlankThenAbsent 0 = .ok (.inl .missing) :=
  ⟨rfl, rfl⟩

/-- C10 (amended): `validate_row` raises `KeyError` on a raw dictionary exactly
    when some required field name is absent as a key and every field before it in
    `FIELD_NAMES` order is present with a non-`None`, non-blank value; a
    present-but-`None`-or-blank field earlier in the order instead produces the
    missing-field error before the absent key is reached. -/
theorem c10_keyerror_iff_first_bad_absent (row : RawDict) (precision : ℕ) :
    validate_row_raw row precision = .error () ↔
      ∃ fs1 f fs2, FIELD_NAMES = fs1 ++ f :: fs2 ∧ row f = none ∧
        ∀ g ∈ fs1, ∃ v, row g = some v ∧ isBlankVal v = false := by
  rw [← checkRequired_error_iff row FIELD_NAMES]
  cases h : checkRequired row FIELD_NAMES with
  | error u =>
    cases u
    simp [validate_row_raw, h]
  | ok b =>
    cases b <;> simp [validate_row_raw, h]

def c10DictAbsentFirst : RawDict := fun f =>
  match f with
  | .event_type => none
  | _ => some (some "x")

/-- Witness for C10 (amended): a dictionary lacking the very first field name
    raises `KeyError`. -/
theorem c10_keyerror_iff_first_bad_absent_witness :
    validate_row_raw c10DictAbsentFirst 0 = .error () :=
  (c10_keyerror_iff_first_bad_absent c10DictAbsentFirst 0).mpr
    ⟨[], .event_type, [.emp_id, .emp_name, .award_id, .date, .quantity], rfl, rfl, by simp⟩

/-! ## Claim C9: order lemmas for the sort -/

theorem lexLt_irrefl : ∀ as : List Char, lexLt as as = false := by
  intro as
  induction as with
  | nil => rfl
  | cons a as ih => simp [lexLt, ih]

theorem lexLt_trans :
    ∀ as bs cs : List Char,
      lexLt as bs = true → lexLt bs cs = true → lexLt as cs = true := by
  intro as
  induction as with
  | nil =>
    intro bs cs h1 h2
    cases bs with
    | nil => exact absurd h1 (by simp [lexLt])
    | cons b bs =>
      cases cs with
      | nil => exact absurd h2 (by simp [lexLt])
      | cons c cs => simp [lexLt]
  | cons a as ih =>
    intro bs cs h1 h2
    cases bs with
    | nil => exact absurd h1 (by simp [lexLt])
    | cons b bs =>
      cases cs with
      | nil => exact absurd h2 (by simp [lexLt])
      | cons c cs =>
        simp only [lexLt] at h1 h2 ⊢
        by_cases hab : a.toNat < b.toNat
        · by_cases hbc : b.toNat < c.toNat
          · rw [if_pos (by omega)]
          · rw [if_neg hbc] at h2
            by_cases hcb : c.toNat < b.toNat
            · rw [if_pos hcb] at h2
              exact absurd h2 (by simp)
            · rw [if_pos (by omega)]
        · rw [if_neg hab] at h1
          by_cases hba : b.toNat < a.toNat
          · rw [if_pos hba] at h1
            exact absurd h1 (by simp)
          · rw [if_neg hba] at h1
            by_cases hbc : b.toNat < c.toNat
            · rw [if_pos (by omega)]
            · rw [if_neg hbc] at h2
              by_cases hcb : c.toNat < b.toNat
              · rw [if_pos hcb] at h2
                exact absurd h2 (by simp)
              · rw [if_neg hcb] at h2
                rw [if_neg (by omega), if_neg (by omega)]
                exact ih bs cs h1 h2

theorem lexLt_total :
    ∀ as bs : List Char, lexLt as bs = true ∨ lexLt bs as = true ∨ as = bs := by
  intro as
  induction as with
  | nil =>
    intro bs
    cases bs with
    | nil => right; right; rfl
    | cons b bs => left; rfl
  | cons a as ih =>
    intro bs
    cases bs with
    | nil => right; left; rfl
    | cons b bs =>
      by_cases hab : a.toNat < b.toNat
      · left; simp [lexLt, hab]
      · by_cases hba : b.toNat < a.toNat
        · right; left; simp [lexLt, hba]
        · have heq : a = b := by
            have hq : a.toNat = b.toNat := by omega
            apply Char.ext
            apply UInt32.ext
            exact hq
          rcases ih bs with h | h | h
          · left; simp [lexLt, hab, hba, h]
          · right; left; simp [lexLt, hab, hba, h]
          · right; right; rw [heq, h]

theorem strLt_irrefl (a : String) : strLt a a = false := lexLt_irrefl a.data

theorem strLt_trans {a b c : String} (h1 : strLt a b = true) (h2 : strLt b c = true) :
    strLt a c = true := lexLt_trans a.data b.data c.data h1 h2

theorem strLt_asymm {a b : String} (h1 : strLt a b = true) (h2 : strLt b a = true) :
    False := by
  have h := strLt_trans h1 h2
  rw [strLt_irrefl] at h
  exact absurd h (by simp)

theorem strLt_total (a b : String) : strLt a b = true ∨ strLt b a = true ∨ a = b := by
  rcases lexLt_total a.data b.data with h | h | h
  · exact Or.inl h
  · exact Or.inr (Or.inl h)
  · refine Or.inr (Or.inr ?_)
    exact congrArg String.mk h

theorem keyLe_total (x y : EventKey) : keyLe x y = true ∨ keyLe y x = true := by
  unfold keyLe
  by_cases h1 : x.1 = y.1
  · rw [if_pos h1, if_pos h1.symm]
    by_cases h2 : x.2.1 = y.2.1
    · rw [if_pos h2, if_pos h2.symm]
      rcases strLt_total x.2.2 y.2.2 with h | h | h
      · left; simp [h]
      · right; simp [h]
      · left; simp [h]
    · rw [if_neg h2, if_neg (fun hy => h2 hy.symm)]
      rcases strLt_total x.2.1 y.2.1 with h | h | h
      · left; exact h
      · right; exact h
      · exact absurd h h2
  · rw [if_neg h1, if_neg (fun hy => h1 hy.symm)]
    rcases strLt_total x.1 y.1 with h | h | h
    · left; exact h
    · right; exact h
    · exact absurd h h1

theorem strLeB_trans {a b c : String}
    (h1 : (strLt a b || decide (a = b)) = true)
    (h2 : (strLt b c || decide (b = c)) = true) :
    (strLt a c || decide (a = c)) = true := by
  rcases (by simpa using h1 : strLt a b = true ∨ a = b) with hl1 | he1
  · rcases (by simpa using h2 : strLt b c = true ∨ b = c) with hl2 | he2
    · have h3 := strLt_trans hl1 hl2
      simp [h3]
    · subst he2
      simp [hl1]
  · subst he1
    exact h2

theorem keyLe_trans (x y z : EventKey)
    (h1 : keyLe x y = true) (h2 : keyLe y z = true) : keyLe x z = true := by
  unfold keyLe at h1 h2 ⊢
  by_cases e1 : x.1 = y.1
  · rw [if_pos e1] at h1
    by_cases e2 : y.1 = z.1
    · rw [if_pos e2] at h2
      rw [if_pos (e1.trans e2)]
      by_cases f1 : x.2.1 = y.2.1
      · rw [if_pos f1] at h1
        by_cases f2 : y.2.1 = z.2.1
        · rw [if_pos f2] at h2
          rw [if_pos (f1.trans f2)]
          exact strLeB_trans h1 h2
        · rw [if_neg f2] at h2
          rw [if_neg (fun hxz => f2 (f1.symm.trans hxz))]
          rw [f1]
          exact h2
      · rw [if_neg f1] at h1
        by_cases f2 : y.2.1 = z.2.1
        · rw [if_neg (fun hxz => f1 (hxz.trans f2.symm))]
          rw [← f2]
          exact h1
        · rw [if_neg f2] at h2
          by_cases f3 : x.2.1 = z.2.1
          · exfalso
            rw [f3] at h1
            exact strLt_asymm h1 h2
          · rw [if_neg f3]
            exact strLt_trans h1 h2
    · rw [if_neg e2] at h2
      rw [if_neg (fun hxz => e2 (e1.symm.trans hxz))]
      rw [e1]
      exact h2
  · rw [if_neg e1] at h1
    by_cases e2 : y.1 = z.1
    · rw [if_neg (fun hxz => e1 (hxz.trans e2.symm))]
      rw [← e2]
      exact h1
    · rw [if_neg e2] at h2
      by_cases e3 : x.1 = z.1
      · exfalso
        rw [e3] at h1
        exact strLt_asymm h1 h2
      · rw [if_neg e3]
        exact strLt_trans h1 h2

instance : IsTotal EventKey (fun a b => keyLe a b = true) := ⟨keyLe_total⟩

instance : IsTrans EventKey (fun a b => keyLe a b = true) := ⟨keyLe_trans⟩

theorem fracDigits_length : ∀ (p a : ℕ), (fracDigits p a).length = p := by
  intro p
  induction p with
  | zero => intro a; rfl
  | succ k ih =>
    intro a
    simp [fracDigits, ih]

theorem getVal_of_mem_nodup :
    ∀ (m : AggMap) (k : EventKey) (v : ℤ),
      (mapKeys m).Nodup → (k, v) ∈ m → getVal m k = some v := by
  intro m
  induction m with
  | nil =>
    intro k v _ h
    simp at h
  | cons hd t ih =>
    intro k v hnd hm
    obtain ⟨k0, v0⟩ := hd
    rw [mapKeys_cons] at hnd
    rcases List.mem_cons.mp hm with h0 | h0
    · have hk : k = k0 := congrArg Prod.fst h0
      have hv : v = v0 := congrArg Prod.snd h0
      subst hk
      subst hv
      simp [getVal]
    · have hk0 : k ∈ mapKeys t := List.mem_map_of_mem Prod.fst h0
      have hne : k ≠ k0 := by
        intro he
        subst he
        exact (List.nodup_cons.mp hnd).1 hk0
      simp [getVal, hne, ih k v (List.nodup_cons.mp hnd).2 h0]

/-- C9: `display_results` emits the lines of the sorted key list (one line per key
    of the map), the sorted key list is ordered by the lexicographic tuple order
    `keyLe` and is a permutation of the map's keys regardless of their insertion
    order, each present pair contributes its own `emp_id,emp_name,award_id,qty`
    line, and for positive precision the rendered quantity carries a minus sign
    exactly for negative totals, with exactly `precision` fractional digits. -/
theorem c9_display_sorted_format (events : AggMap) (precision : ℕ) :
    display_results events precision =
      (sortKeys (mapKeys events)).map
        (fun k => formatLine k ((getVal events k).getD 0) precision) ∧
    (display_results events precision).length = events.length ∧
    List.Sorted (fun a b => keyLe a b = true) (sortKeys (mapKeys events)) ∧
    (sortKeys (mapKeys events)).Perm (mapKeys events) ∧
    (∀ (k : EventKey) (v : ℤ), (mapKeys events).Nodup → (k, v) ∈ events →
      formatLine k v precision ∈ display_results events precision) ∧
    (∀ (m : ℤ) (p2 : ℕ), 0 < p2 →
      formatQty m p2 =
        (if m < 0 then "-" else "") ++ Nat.repr (m.natAbs / 10 ^ p2) ++ "." ++
          fracDigits p2 (m.natAbs % 10 ^ p2) ∧
      (fracDigits p2 (m.natAbs % 10 ^ p2)).length = p2) := by
  refine ⟨rfl, ?_, List.sorted_insertionSort _ _, List.perm_insertionSort _ _, ?_, ?_⟩
  · calc (display_results events precision).length
        = (sortKeys (mapKeys events)).length := List.length_map _ _
      _ = (mapKeys events).length := (List.perm_insertionSort _ _).length_eq
      _ = events.length := List.length_map _ _
  · intro k v hnd hm
    have hv := getVal_of_mem_nodup events k v hnd hm
    have hk : k ∈ sortKeys (mapKeys events) :=
      (List.perm_insertionSort _ _).mem_iff.mpr (List.mem_map_of_mem Prod.fst hm)
    have hmem := List.mem_map_of_mem
      (fun k => formatLine k ((getVal events k).getD 0) precision) hk
    have hgd : (getVal events k).getD 0 = v := by rw [hv]; rfl
    rw [show display_results events precision =
      (sortKeys (mapKeys events)).map
        (fun k => formatLine k ((getVal events k).getD 0) precision) from rfl, ← hgd]
    exact hmem
  · intro m2 p2 hp
    refine ⟨?_, fracDigits_length p2 _⟩
    have hp0 : ¬ p2 = 0 := by omega
    by_cases hm : m2 < 0 <;> simp [formatQty, hp0, hm, String.append_assoc]

def c9DemoMap : AggMap := [(("B", "x", "y"), -50), (("A", "x", "y"), 125)]

/-- Witness for C9: the clauses with hypotheses, at a concrete two-key map with a
    negative total and precision 2. -/
theorem c9_display_sorted_format_witness :
    formatLine ("B", "x", "y") (-50) 2 ∈ display_results c9DemoMap 2 ∧
    formatQty (-50) 2 =
      (if (-50 : ℤ) < 0 then "-" else "") ++ Nat.repr ((-50 : ℤ).natAbs / 10 ^ 2) ++ "." ++
        fracDigits 2 ((-50 : ℤ).natAbs % 10 ^ 2) ∧
    (fracDigits 2 ((-50 : ℤ).natAbs % 10 ^ 2)).length = 2 := by
  refine ⟨?_, ?_, ?_⟩
  · exact (c9_display_sorted_format c9DemoMap 2).2.2.2.2.1 ("B", "x", "y") (-50)
      (by decide) (by decide)
  · exact ((c9_display_sorted_format c9DemoMap 2).2.2.2.2.2 (-50) 2 (by decide)).1
  · exact ((c9_display_sorted_format c9DemoMap 2).2.2.2.2.2 (-50) 2 (by decide)).2

/-! ## Claim C1 -/

def c1GoodRow : RawRow :=
  ⟨some "VEST", some "E1", some "Alice", some "A1", some "2024-01-01", some "1"⟩

def c1BadRow : RawRow :=
  ⟨some "", some "E1", some "Alice", some "A1", some "2024-01-01", some "1"⟩

def c1Rows : List RawRow := List.replicate 100 c1GoodRow ++ [c1BadRow]

/-- C1, the code evaluated at the failing input: in a 101-row file whose only
    invalid row sits at zero-based file position 100 (the first row of the second
    batch), `process_csv` records the message "Row index 200: ...", not
    "Row index 100: ...".  `process_csv` enumerates rows with their global
    position, and `process_batch` adds `batch_index * BATCH_SIZE` on top of that
    already-global index, so the reported index is 1 * 100 + 100 = 200 while the
    row's position in the file is 100. -/
theorem c1_global_index_bug :
    c1Rows.drop 100 = [c1BadRow] ∧
    (process_csv c1Rows ⟨2024, 3, 1⟩ 0).2.2 = [errMsg .missing 200 c1BadRow] ∧
    (process_csv c1Rows ⟨2024, 3, 1⟩ 0).2.2 ≠ [errMsg .missing 100 c1BadRow] :=
  ⟨by decide, by decide, by decide⟩

end VestSchedule
